import Mathlib

/-!
# Verification of the `cmdparse` command dispatcher (`cmd.cpp`)

A shallow embedding of the tokenizer/dispatcher class `CmdParam` from
`src/cmd.cpp` (wd5gnr/cmdparse), together with theorems settling the
specification claims.

Modelling conventions:
* `std::string` is modelled as `List Char`.
* The static parser state (`CmdParam::current`, `CmdParam::index`) is
  modelled as an explicit record `PState` threaded through the functions.
* `CmdParam::index` is declared `unsigned int` (32 bits) in the source while
  `std::string` positions are `size_t` (64 bits on the reference platform).
  Storing `std::string::npos` (= 2^64 - 1) into `index` truncates it to
  `2^32 - 1` (`NPOS32` below).  In-range positions (lines shorter than 2^32
  characters, the only regime the claims concern) are stored unchanged.
* Code that throws a C++ exception is modelled with `Option`/`Except`:
  `none` / `.error _` means the call does not return normally.
* A handler invocation is recorded as data (which table index was invoked,
  and the arguments passed), since handlers are opaque callbacks.
-/

namespace CmdParse

/-- The separator set, from `CmdParam::sep = " \t\r\n"` (cmd.cpp line 60). -/
def sepStr : List Char := [' ', '\t', '\r', '\n']

/-- `2^32 - 1`: the value of `std::string::npos` (2^64-1) after truncation
into the `unsigned int` static `CmdParam::index`. -/
def NPOS32 : Nat := 2 ^ 32 - 1

/-- `s.find_first_{of,not_of}(…, pos)` as index search: the least index
`i ≥ pos` with `p s[i]`, or `none` (npos) when there is no such index. -/
def findIdxFrom (p : Char → Bool) : List Char → Nat → Option Nat
  | [], _ => none
  | c :: cs, 0 => if p c then some 0 else (findIdxFrom p cs 0).map (· + 1)
  | _ :: cs, pos + 1 => (findIdxFrom p cs pos).map (· + 1)

/-- `current.find_first_not_of(sep, pos)`. -/
def findFirstNotOf (s : List Char) (pos : Nat) : Option Nat :=
  findIdxFrom (fun c => !(sepStr.contains c)) s pos

/-- `current.find_first_of(sep, pos)`. -/
def findFirstOf (s : List Char) (pos : Nat) : Option Nat :=
  findIdxFrom (fun c => sepStr.contains c) s pos

/-- The shared parser state: statics `CmdParam::current` and
`CmdParam::index` (cmd.cpp lines 58–59). -/
structure PState where
  current : List Char
  index : Nat
  deriving DecidableEq, Repr

/-- Result of `CmdParam::gettoken`: the returned string, the `*valid` flag,
and the parser state afterwards. -/
structure GetTok where
  token : List Char
  valid : Bool
  state : PState
  deriving DecidableEq, Repr

/-- `CmdParam::gettoken` (cmd.cpp lines 102–113):

    n1 = current.find_first_not_of(sep, index);
    if (n1 == npos) return "";                     // valid = false
    valid = true;
    index = current.find_first_of(sep, n1);        // npos truncates to NPOS32
    token = current.substr(n1, (index != npos) ? index - n1 : npos);

On the 64-bit reference platform the stored 32-bit `index` never compares
equal to the 64-bit `npos`, so the substring count is always `index - n1`;
`substr` clamps the count to the end of the string, which is `take`. -/
def gettoken (st : PState) : GetTok :=
  match findFirstNotOf st.current st.index with
  | none => ⟨[], false, st⟩
  | some n1 =>
      let nidx := match findFirstOf st.current n1 with
                  | none => NPOS32
                  | some k => k
      ⟨(st.current.drop n1).take (nidx - n1), true, ⟨st.current, nidx⟩⟩

/-- `s.substr(pos)`: throws `std::out_of_range` when `pos > s.length()`,
modelled as `none`. -/
def substrFrom (s : List Char) (pos : Nat) : Option (List Char) :=
  if pos ≤ s.length then some (s.drop pos) else none

/-- One row of the command table.  Field layout from the documented
initializer `{ id, "name", "help text", function, arg }` (cmd.cpp lines
11–17, 194–203); the function pointer `fp` is not a field here because a
handler invocation is recorded as data (`PResult.invoked`) naming the row
by position.  `α` is the type standing in for the `void *arg` payload. -/
structure CmdParam (α : Type) where
  id : Nat
  cmdname : List Char
  doc : List Char
  arg : α
  deriving DecidableEq, Repr

/-- The observable outcome of one `CmdParam::process` call:
* `errPrint msg line` — `printfunc(msg); printfunc(line)` (blank input);
* `invoked i firstArg arg rem` — `table[i].fp(firstArg, arg, rem)`;
* `notFound line cmd` — `notfoundfunc(line, cmd)`;
* `thrown` — a `std::out_of_range` exception escaped from `substr`. -/
inductive PResult (α : Type) where
  | errPrint (msg : List Char) (line : List Char)
  | invoked (i : Nat) (firstArg : Nat) (arg : α) (remainder : List Char)
  | notFound (line : List Char) (cmd : List Char)
  | thrown
  deriving DecidableEq, Repr

/-- `printfunc("Unknown error:")`, the first of the two prints on blank
input (cmd.cpp line 127). -/
def unknownErrMsg : List Char := "Unknown error:".data

/-- The table scan of `CmdParam::process` (cmd.cpp lines 132–141):

    for (int i = 0; table[i].cmdname.length() != 0; i++)
      if (ccmd == table[i].cmdname) {
        current = cmdline;                          // no-op: unchanged
        table[i].fp(i, table[i].arg, current.substr(index).c_str());
        return;
      }
    notfoundfunc(cmdline, ccmd.c_str());

`none` marks the loop running past the end of the table (no sentinel):
undefined behaviour in the C++ source. -/
def scanTable (line ccmd : List Char) (idx : Nat) :
    List (CmdParam α) → Nat → Option (PResult α)
  | [], _ => none
  | e :: rest, i =>
      if e.cmdname.length = 0 then some (.notFound line ccmd)
      else if ccmd = e.cmdname then
        some (match substrFrom line idx with
              | none => .thrown
              | some rem => .invoked i i e.arg rem)
      else scanTable line ccmd idx rest (i + 1)

/-- `CmdParam::process` (cmd.cpp lines 118–144).  Returns the observable
outcome together with the shared parser state as the handler (or caller)
sees it afterwards. -/
def process (table : List (CmdParam α)) (cmdline : List Char) :
    Option (PResult α) × PState :=
  let r := gettoken ⟨cmdline, 0⟩
  if r.valid then (scanTable cmdline r.token r.state.index table 0, r.state)
  else (some (.errPrint unknownErrMsg cmdline), r.state)

/-! ## Numeric conversions

`CmdParam::getfloat/getint/getuint` call `std::stof`, `std::stoi(…,0)` and
`std::stoul(…,0)`.  These C++ standard-library functions are modelled below
from their specified behaviour (C17 `strtol`/`strtoul`/`strtod` subject
sequences, C locale); a failed conversion throws `std::invalid_argument`
and an out-of-range value throws `std::out_of_range`, modelled as
`Except.error`. -/

/-- C `isspace` in the C locale. -/
def isSpaceC (c : Char) : Bool := [' ', '\t', '\n', '\x0b', '\x0c', '\r'].contains c

/-- The value of a digit character as `strtol` reads it: `0`–`9`, then
letters `a`–`z`/`A`–`Z` valued 10–35. -/
def digitVal? (c : Char) : Option Nat :=
  let n := c.toNat
  if 48 ≤ n ∧ n ≤ 57 then some (n - 48)
  else if 97 ≤ n ∧ n ≤ 122 then some (n - 97 + 10)
  else if 65 ≤ n ∧ n ≤ 90 then some (n - 65 + 10)
  else none

/-- Accumulate the maximal prefix of digits valid in base `b` (Horner),
returning the value and the unconsumed suffix. -/
def parseDigits (b : Nat) : List Char → Nat → Nat × List Char
  | [], acc => (acc, [])
  | c :: cs, acc =>
      match digitVal? c with
      | some d => if d < b then parseDigits b cs (acc * b + d) else (acc, c :: cs)
      | none => (acc, c :: cs)

/-- Optional sign at the head of the subject sequence. -/
def splitSign (s : List Char) : Bool × List Char :=
  match s with
  | c :: r => if c = '-' then (true, r) else if c = '+' then (false, r) else (false, s)
  | [] => (false, [])

def isHexDigitC (c : Char) : Bool :=
  match digitVal? c with
  | some d => d < 16
  | none => false

/-- Base auto-detection and digit accumulation of `strtol`/`strtoul` with
base argument `0`, applied after the sign: `0x`/`0X` followed by a hex
digit means base 16, a leading `0` means base 8 (the `0` itself is a
consumed digit), otherwise base 10.  Returns the magnitude, or `none` when
no digit is consumed. -/
def strtoulBody : List Char → Option Nat
  | [] => none
  | c :: r =>
      if c = '0' then
        match r with
        | [] => some 0
        | c2 :: r2 =>
            if c2 = 'x' ∨ c2 = 'X' then
              match r2 with
              | [] => some 0
              | d :: _ => if isHexDigitC d then some (parseDigits 16 r2 0).1 else some 0
            else some (parseDigits 8 (c2 :: r2) 0).1
      else
        match digitVal? c with
        | some d => if d < 10 then some (parseDigits 10 (c :: r) 0).1 else none
        | none => none

/-- The common subject-sequence parse of `strtol`/`strtoul` with base
argument `0`: skip spaces, optional sign, base detection and digits.
Returns the sign and the magnitude, or `none` when no digit is consumed
(the C++ wrappers then throw `std::invalid_argument`). -/
def strtoulCore (s : List Char) : Option (Bool × Nat) :=
  let p := splitSign (s.dropWhile isSpaceC)
  match strtoulBody p.2 with
  | some m => some (p.1, m)
  | none => none

/-- How a numeric-conversion call fails to return normally. -/
inductive ConvErr where
  | invalidArgument
  | outOfRange
  deriving DecidableEq, Repr

instance {ε α : Type} [DecidableEq ε] [DecidableEq α] : DecidableEq (Except ε α) :=
  fun x y =>
    match x, y with
    | .ok a, .ok b => if h : a = b then .isTrue (by rw [h]) else .isFalse (by simp [h])
    | .error a, .error b => if h : a = b then .isTrue (by rw [h]) else .isFalse (by simp [h])
    | .ok _, .error _ => .isFalse (by simp)
    | .error _, .ok _ => .isFalse (by simp)

def INT_MIN : Int := -(2 ^ 31)
def INT_MAX : Int := 2 ^ 31 - 1
def ULONG_MAX : Nat := 2 ^ 64 - 1

/-- `std::stoi(s, NULL, 0)`: `strtol` with base auto-detection; throws
`std::invalid_argument` when no digit is consumed, `std::out_of_range`
when the value does not fit in a 32-bit `int`. -/
def stoiModel (s : List Char) : Except ConvErr Int :=
  match strtoulCore s with
  | none => .error .invalidArgument
  | some (neg, m) =>
      let v : Int := if neg then -(m : Int) else (m : Int)
      if v < INT_MIN ∨ INT_MAX < v then .error .outOfRange else .ok v

/-- `std::stoul(s, NULL, 0)`: `strtoul` with base auto-detection; a leading
minus sign negates in the unsigned type (modulo 2^64); magnitudes beyond
`ULONG_MAX` throw `std::out_of_range`. -/
def stoulModel (s : List Char) : Except ConvErr Nat :=
  match strtoulCore s with
  | none => .error .invalidArgument
  | some (neg, m) =>
      if ULONG_MAX < m then .error .outOfRange
      else .ok (if neg then (2 ^ 64 - m % 2 ^ 64) % 2 ^ 64 else m)

/-- `std::stof` on the decimal fragment of the `strtod` grammar (optional
sign, digits with optional fraction, optional decimal exponent), with the
value taken exactly as a rational: the binary rounding step of `stof` is
the identity on the exactly-representable values used in this development.
Hexadecimal floats and `inf`/`nan` spellings are outside the fragment.
Throws `std::invalid_argument` when no significand digit is consumed. -/
def stofModel (s : List Char) : Except ConvErr Rat :=
  let s1 := s.dropWhile isSpaceC
  let p := splitSign s1
  let neg := p.1
  let s2 := p.2
  let q1 := parseDigits 10 s2 0
  let ip := q1.1
  let r1 := q1.2
  let d1 := s2.length - r1.length
  let pf : Nat × Nat × List Char :=
    match r1 with
    | '.' :: rf =>
        let q2 := parseDigits 10 rf 0
        (q2.1, rf.length - q2.2.length, q2.2)
    | _ => (0, 0, r1)
  let fv := pf.1
  let fd := pf.2.1
  let r2 := pf.2.2
  if d1 + fd = 0 then .error .invalidArgument
  else
    let ex : Int :=
      match r2 with
      | e :: rest =>
          if e = 'e' ∨ e = 'E' then
            let pe := splitSign rest
            let qe := parseDigits 10 pe.2 0
            if pe.2.length - qe.2.length = 0 then 0
            else if pe.1 then -(qe.1 : Int) else (qe.1 : Int)
          else 0
      | [] => 0
    .ok ((if neg then -1 else 1) *
          ((ip : Rat) + (fv : Rat) / (10 : Rat) ^ fd) * (10 : Rat) ^ ex)

/-- `CmdParam::getfloat` (cmd.cpp lines 67–75): returns the value, the
`*valid` flag and the state afterwards, or the exception escaping from
`std::stof`. -/
def getfloat (st : PState) : Except ConvErr (Rat × Bool × PState) :=
  let r := gettoken st
  if r.valid then
    match stofModel r.token with
    | .ok v => .ok (v, true, r.state)
    | .error e => .error e
  else .ok (0, false, r.state)

/-- `CmdParam::getint` (cmd.cpp lines 79–87). -/
def getint (st : PState) : Except ConvErr (Int × Bool × PState) :=
  let r := gettoken st
  if r.valid then
    match stoiModel r.token with
    | .ok v => .ok (v, true, r.state)
    | .error e => .error e
  else .ok (0, false, r.state)

/-- `CmdParam::getuint` (cmd.cpp lines 90–98); the `unsigned long` result
of `std::stoul` is truncated by the assignment to the 32-bit
`unsigned int f`. -/
def getuint (st : PState) : Except ConvErr (Nat × Bool × PState) :=
  let r := gettoken st
  if r.valid then
    match stoulModel r.token with
    | .ok v => .ok (v % 2 ^ 32, true, r.state)
    | .error e => .error e
  else .ok (0, false, r.state)

/-! ## Standard textual renderings (for the round-trip claim) -/

/-- Fuel-based digit rendering (structural recursion, so that concrete
renderings reduce in the kernel); `renderAux_eq_digits` below identifies it
with `Nat.digits`. -/
def renderAux (b : Nat) : Nat → Nat → List Char
  | 0, _ => []
  | _ + 1, 0 => []
  | fuel + 1, n + 1 => renderAux b fuel ((n + 1) / b) ++ [Nat.digitChar ((n + 1) % b)]

/-- The standard base-`b` rendering of a natural number: most significant
digit first, no leading zeros, lower-case letters for digits above 9;
`0` renders as `"0"`. -/
def renderBase (b n : Nat) : List Char :=
  if n = 0 then ['0'] else renderAux b n n

/-- The standard decimal rendering of an integer. -/
def renderInt (v : Int) : List Char :=
  if v < 0 then '-' :: renderBase 10 v.natAbs else renderBase 10 v.natAbs

/-! ## Concrete tables from the specification examples -/

/-- The table `[{1,"help",…}, {0,"",…}]` of specification example 1. -/
def helpTable : List (CmdParam Unit) :=
  [⟨1, "help".data, "Get help".data, ()⟩, ⟨0, [], [], ()⟩]

/-- The table `[{4,"A",…,&ctx}]` plus sentinel of specification example 2. -/
def aTable : List (CmdParam Unit) :=
  [⟨4, "A".data, "View/set valueA".data, ()⟩, ⟨0, [], [], ()⟩]

/-! ## Lemmas about the index searches -/

theorem findIdxFrom_some_spec (p : Char → Bool) :
    ∀ (s : List Char) (pos k : Nat), findIdxFrom p s pos = some k →
      pos ≤ k ∧ k < s.length ∧
        p (s.getD k ' ') = true ∧ ∀ c ∈ (s.drop pos).take (k - pos), p c = false := by
  intro s
  induction s with
  | nil => intro pos k h; simp [findIdxFrom] at h
  | cons c cs ih =>
      intro pos k h
      cases pos with
      | zero =>
          by_cases hp : p c
          · simp [findIdxFrom, hp] at h
            subst h
            exact ⟨Nat.le_refl _, Nat.succ_pos _, hp, by simp⟩
          · simp [findIdxFrom, hp, Option.map_eq_some'] at h
            obtain ⟨k', hk', rfl⟩ := h
            obtain ⟨-, hlt, hpk, hbefore⟩ := ih 0 k' hk'
            refine ⟨Nat.zero_le _, Nat.succ_lt_succ hlt, ?_, ?_⟩
            · simpa using hpk
            · intro x hx
              simp only [List.drop_zero, Nat.sub_zero, List.take_succ_cons] at hx
              rcases List.mem_cons.mp hx with rfl | hx2
              · simpa using hp
              · exact hbefore x (by simpa using hx2)
      | succ pos =>
          simp [findIdxFrom, Option.map_eq_some'] at h
          obtain ⟨k', hk', rfl⟩ := h
          obtain ⟨hle, hlt, hpk, hbefore⟩ := ih pos k' hk'
          refine ⟨Nat.succ_le_succ hle, Nat.succ_lt_succ hlt, ?_, ?_⟩
          · simpa using hpk
          · intro x hx
            simp only [List.drop_succ_cons, Nat.succ_sub_succ] at hx
            exact hbefore x hx

theorem findIdxFrom_none_iff (p : Char → Bool) :
    ∀ (s : List Char) (pos : Nat),
      findIdxFrom p s pos = none ↔ ∀ c ∈ s.drop pos, p c = false := by
  intro s
  induction s with
  | nil => intro pos; simp [findIdxFrom]
  | cons c cs ih =>
      intro pos
      cases pos with
      | zero =>
          by_cases hp : p c
          · simp [findIdxFrom, hp]
          · simp only [findIdxFrom, if_neg hp, Option.map_eq_none', List.drop_zero]
            rw [ih 0]
            simp only [List.drop_zero]
            constructor
            · intro h x hx
              rcases List.mem_cons.mp hx with rfl | hx2
              · simpa using hp
              · exact h x hx2
            · intro h x hx
              exact h x (List.mem_cons_of_mem _ hx)
      | succ pos =>
          simp only [findIdxFrom, Option.map_eq_none', List.drop_succ_cons]
          exact ih pos

/-! ## Lemmas about `gettoken` -/

theorem gettoken_current (st : PState) : (gettoken st).state.current = st.current := by
  unfold gettoken
  cases h1 : findFirstNotOf st.current st.index with
  | none => simp only [h1]
  | some n1 => simp only [h1]

theorem gettoken_invalid_state (st : PState) (h : (gettoken st).valid = false) :
    gettoken st = ⟨[], false, st⟩ := by
  unfold gettoken at h ⊢
  cases h1 : findFirstNotOf st.current st.index with
  | none => simp only [h1]
  | some n1 => simp [h1] at h

theorem gettoken_mono (st : PState) (h : st.index ≤ NPOS32) :
    st.index ≤ (gettoken st).state.index := by
  unfold gettoken
  cases h1 : findFirstNotOf st.current st.index with
  | none => simp only [h1]; exact Nat.le_refl _
  | some n1 =>
      simp only [h1]
      obtain ⟨hle1, -, -, -⟩ := findIdxFrom_some_spec _ _ _ _ h1
      cases h2 : findFirstOf st.current n1 with
      | none => simp only [h2]; exact h
      | some k =>
          simp only [h2]
          obtain ⟨hle2, -, -, -⟩ := findIdxFrom_some_spec _ _ _ _ h2
          exact Nat.le_trans hle1 hle2

theorem gettoken_index_spec (st : PState) (hv : (gettoken st).valid = true) :
    ((gettoken st).state.index < st.current.length ∧
        sepStr.contains (st.current.getD (gettoken st).state.index ' ') = true) ∨
      (gettoken st).state.index = NPOS32 := by
  unfold gettoken at hv ⊢
  cases h1 : findFirstNotOf st.current st.index with
  | none => simp [h1] at hv
  | some n1 =>
      simp only [h1]
      cases h2 : findFirstOf st.current n1 with
      | none => simp [h2]
      | some k =>
          simp only [h2]
          obtain ⟨-, hk, hpk, -⟩ := findIdxFrom_some_spec _ _ _ _ h2
          exact Or.inl ⟨hk, hpk⟩

/-- When a token is found, it is nonempty and free of separator
characters.  The length bound keeps truncated `npos` (`NPOS32`) beyond
every real position of the line. -/
theorem gettoken_token_spec (st : PState) (hlen : st.current.length ≤ NPOS32)
    (hv : (gettoken st).valid = true) :
    (gettoken st).token ≠ [] ∧
      ∀ c ∈ (gettoken st).token, sepStr.contains c = false := by
  unfold gettoken at hv ⊢
  cases h1 : findFirstNotOf st.current st.index with
  | none => simp [h1] at hv
  | some n1 =>
      simp only [h1]
      obtain ⟨-, hn1, hpn1, -⟩ := findIdxFrom_some_spec _ _ _ _ h1
      simp only [Bool.not_eq_eq_eq_not, Bool.not_true] at hpn1
      constructor
      · -- the token is nonempty
        cases h2 : findFirstOf st.current n1 with
        | none =>
            simp only [h2]
            intro hcon
            rcases List.take_eq_nil_iff.mp hcon with h3 | h3
            · have : n1 < NPOS32 := Nat.lt_of_lt_of_le hn1 hlen
              omega
            · rw [List.drop_eq_nil_iff] at h3
              omega
        | some k =>
            simp only [h2]
            obtain ⟨hk1, hk2, hpk, -⟩ := findIdxFrom_some_spec _ _ _ _ h2
            have hkn : n1 ≠ k := by
              intro hcon
              subst hcon
              rw [hpn1] at hpk
              exact Bool.false_ne_true hpk
            intro hcon
            rcases List.take_eq_nil_iff.mp hcon with h3 | h3
            · omega
            · rw [List.drop_eq_nil_iff] at h3
              omega
      · -- no separator occurs in the token
        cases h2 : findFirstOf st.current n1 with
        | none =>
            simp only [h2]
            intro c hc
            have := (findIdxFrom_none_iff _ _ _).mp h2
            exact this c (List.mem_of_mem_take hc)
        | some k =>
            simp only [h2]
            intro c hc
            obtain ⟨-, -, -, hbefore⟩ := findIdxFrom_some_spec _ _ _ _ h2
            exact hbefore c hc

/-- A line that is nonempty and wholly free of separators is consumed as a
single token ending in truncated `npos`. -/
theorem gettoken_all (s : List Char) (hne : s ≠ [])
    (hsep : ∀ c ∈ s, sepStr.contains c = false) (hlen : s.length ≤ NPOS32) :
    gettoken ⟨s, 0⟩ = ⟨s, true, ⟨s, NPOS32⟩⟩ := by
  obtain ⟨c, cs, rfl⟩ := List.exists_cons_of_ne_nil hne
  have hc := hsep c (List.mem_cons_self c cs)
  have h1 : findFirstNotOf (c :: cs) 0 = some 0 := by
    simp only [findFirstNotOf, findIdxFrom, hc]
    rfl
  have h2 : findFirstOf (c :: cs) 0 = none := by
    rw [findFirstOf, findIdxFrom_none_iff]
    simpa using hsep
  rw [gettoken]
  simp only [h1, h2]
  simp only [Nat.sub_zero, List.drop_zero]
  rw [List.take_of_length_le hlen]

/-! ## Lemmas about the table scan -/

theorem scanTable_notFound {α : Type} (line ccmd : List Char) (idx : Nat) :
    ∀ (pre : List (CmdParam α)) (s : CmdParam α) (post : List (CmdParam α)) (i : Nat),
      s.cmdname = [] → (∀ e ∈ pre, e.cmdname ≠ ccmd) →
      scanTable line ccmd idx (pre ++ s :: post) i = some (.notFound line ccmd) := by
  intro pre
  induction pre with
  | nil =>
      intro s post i hs _
      simp [scanTable, hs]
  | cons e pre ih =>
      intro s post i hs hne
      by_cases he : e.cmdname.length = 0
      · simp [scanTable, he]
      · have hmatch : ¬(ccmd = e.cmdname) := fun hcon =>
          hne e (List.mem_cons_self e pre) hcon.symm
        simp only [List.cons_append, scanTable, if_neg he, if_neg hmatch]
        exact ih s post (i + 1) hs fun x hx => hne x (List.mem_cons_of_mem _ hx)

theorem scanTable_match {α : Type} (line ccmd : List Char) (idx : Nat)
    (hidx : idx ≤ line.length) :
    ∀ (pre : List (CmdParam α)) (e : CmdParam α) (rest : List (CmdParam α)) (i : Nat),
      (∀ x ∈ pre, x.cmdname ≠ [] ∧ x.cmdname ≠ ccmd) →
      e.cmdname = ccmd → ccmd ≠ [] →
      scanTable line ccmd idx (pre ++ e :: rest) i =
        some (.invoked (i + pre.length) (i + pre.length) e.arg (line.drop idx)) := by
  intro pre
  induction pre with
  | nil =>
      intro e rest i _ hmatch hcc
      have he : ¬(e.cmdname.length = 0) := by
        rw [hmatch]
        simpa using hcc
      simp [scanTable, if_neg he, hmatch, substrFrom, hidx, hcc]
  | cons x pre ih =>
      intro e rest i hpre hmatch hcc
      obtain ⟨hx1, hx2⟩ := hpre x (List.mem_cons_self x pre)
      have hxlen : ¬(x.cmdname.length = 0) := by simpa using hx1
      have hxne : ¬(ccmd = x.cmdname) := fun hcon => hx2 hcon.symm
      have hrec := ih e rest (i + 1) (fun y hy => hpre y (List.mem_cons_of_mem _ hy)) hmatch hcc
      simp only [List.cons_append, scanTable, if_neg hxlen, if_neg hxne, List.append_eq]
      rw [hrec]
      simp only [List.length_cons]
      rw [show i + 1 + pre.length = i + (pre.length + 1) from by omega]

theorem scanTable_sentinel_blocks {α : Type} (line ccmd : List Char) (idx : Nat) :
    ∀ (pre : List (CmdParam α)) (s : CmdParam α) (post post' : List (CmdParam α)) (i : Nat),
      s.cmdname = [] →
      scanTable line ccmd idx (pre ++ s :: post) i =
        scanTable line ccmd idx (pre ++ s :: post') i := by
  intro pre
  induction pre with
  | nil =>
      intro s post post' i hs
      simp [scanTable, hs]
  | cons e pre ih =>
      intro s post post' i hs
      by_cases he : e.cmdname.length = 0
      · simp [scanTable, he]
      · by_cases hm : ccmd = e.cmdname
        · simp [scanTable, if_neg he, hm]
        · simp only [List.cons_append, scanTable, if_neg he, if_neg hm]
          exact ih s post post' (i + 1) hs

theorem scanTable_invoked_lt {α : Type} (line ccmd : List Char) (idx : Nat) :
    ∀ (pre : List (CmdParam α)) (s : CmdParam α) (post : List (CmdParam α)) (i : Nat)
      (j fa : Nat) (a : α) (r : List Char),
      s.cmdname = [] →
      scanTable line ccmd idx (pre ++ s :: post) i = some (.invoked j fa a r) →
      j < i + pre.length := by
  intro pre
  induction pre with
  | nil =>
      intro s post i j fa a r hs h
      simp [scanTable, hs] at h
  | cons e pre ih =>
      intro s post i j fa a r hs h
      by_cases he : e.cmdname.length = 0
      · simp [scanTable, he] at h
      · by_cases hm : ccmd = e.cmdname
        · simp only [List.cons_append, scanTable, if_neg he, if_pos hm] at h
          have : j = i := by
            cases hsub : substrFrom line idx with
            | none => simp [hsub] at h
            | some rem => simp [hsub] at h; omega
          rw [this]
          simp only [List.length_cons]
          omega
        · simp only [List.cons_append, scanTable, if_neg he, if_neg hm] at h
          have := ih s post (i + 1) j fa a r hs h
          simp only [List.length_cons]
          omega

/-! ## Lemmas about digits, parsing and rendering -/

theorem digitVal_digitChar : ∀ d, d < 16 → digitVal? (Nat.digitChar d) = some d := by decide

theorem digitChar_not_space : ∀ d, d < 16 → isSpaceC (Nat.digitChar d) = false := by decide

theorem digitChar_ne_minus : ∀ d, d < 16 → Nat.digitChar d ≠ '-' := by decide

theorem digitChar_ne_plus : ∀ d, d < 16 → Nat.digitChar d ≠ '+' := by decide

theorem digitChar_ne_x : ∀ d, d < 16 → Nat.digitChar d ≠ 'x' ∧ Nat.digitChar d ≠ 'X' := by
  decide

theorem digitChar_hex : ∀ d, d < 16 → isHexDigitC (Nat.digitChar d) = true := by decide

theorem digitChar_not_sep : ∀ d, d < 16 → sepStr.contains (Nat.digitChar d) = false := by
  decide

theorem digitChar_ne_zero : ∀ d, d < 16 → d ≠ 0 → Nat.digitChar d ≠ '0' := by decide

theorem parseDigits_map (b : Nat) (hb : b ≤ 16) :
    ∀ (ds : List Nat) (acc : Nat), (∀ d ∈ ds, d < b) →
      parseDigits b (ds.map Nat.digitChar) acc =
        (Nat.ofDigits b ds.reverse + acc * b ^ ds.length, []) := by
  intro ds
  induction ds with
  | nil => intro acc _; simp [parseDigits, Nat.ofDigits]
  | cons d ds ih =>
      intro acc hds
      have hd : d < b := hds d (List.mem_cons_self _ _)
      have hd16 : d < 16 := Nat.lt_of_lt_of_le hd hb
      have hval := digitVal_digitChar d hd16
      simp only [List.map_cons, parseDigits, hval, if_pos hd]
      rw [ih (acc * b + d) (fun y hy => hds y (List.mem_cons_of_mem _ hy))]
      refine Prod.ext ?_ rfl
      simp only [List.reverse_cons, Nat.ofDigits_append, Nat.ofDigits_singleton,
        List.length_reverse, List.length_cons]
      ring

theorem renderAux_eq_digits (b : Nat) (hb : 1 < b) :
    ∀ (fuel n : Nat), n ≤ fuel →
      renderAux b fuel n = (Nat.digits b n).reverse.map Nat.digitChar := by
  intro fuel
  induction fuel with
  | zero =>
      intro n hn
      obtain rfl : n = 0 := Nat.le_zero.mp hn
      simp [renderAux]
  | succ fuel ih =>
      intro n hn
      cases n with
      | zero => simp [renderAux]
      | succ n =>
          have hdiv : (n + 1) / b ≤ fuel := by
            have hd : (n + 1) / b < n + 1 := Nat.div_lt_self (by omega) hb
            omega
          rw [renderAux, ih _ hdiv, Nat.digits_def' hb (Nat.succ_pos n)]
          simp

theorem renderBase_eq (b n : Nat) (hb : 1 < b) :
    renderBase b n =
      if n = 0 then ['0'] else (Nat.digits b n).reverse.map Nat.digitChar := by
  unfold renderBase
  by_cases hn : n = 0
  · simp [hn]
  · rw [if_neg hn, if_neg hn, renderAux_eq_digits b hb n n (Nat.le_refl n)]

theorem renderBase_chars (b n : Nat) (hb : 1 < b) (hb16 : b ≤ 16) :
    ∀ c ∈ renderBase b n, ∃ d, d < 16 ∧ c = Nat.digitChar d := by
  intro c hc
  rw [renderBase_eq b n hb] at hc
  by_cases hn : n = 0
  · rw [if_pos hn] at hc
    simp only [List.mem_singleton] at hc
    exact ⟨0, by omega, by rw [hc]; rfl⟩
  · rw [if_neg hn] at hc
    simp only [List.mem_map, List.mem_reverse] at hc
    obtain ⟨d, hd, rfl⟩ := hc
    exact ⟨d, Nat.lt_of_lt_of_le (Nat.digits_lt_base hb hd) hb16, rfl⟩

theorem renderBase_structure (b n : Nat) (hb : 1 < b) :
    ∃ d t, renderBase b n = Nat.digitChar d :: t ∧ d < b ∧ (n ≠ 0 → d ≠ 0) := by
  by_cases hn : n = 0
  · refine ⟨0, [], ?_, by omega, fun h => absurd hn h⟩
    rw [renderBase_eq b n hb, if_pos hn]
    rfl
  · have hds : Nat.digits b n ≠ [] := Nat.digits_ne_nil_iff_ne_zero.mpr hn
    have hrev : (Nat.digits b n).reverse ≠ [] := by simpa using hds
    obtain ⟨d, t, hdt⟩ := List.exists_cons_of_ne_nil hrev
    have hhead : (Nat.digits b n).reverse.head? = some d := by rw [hdt]; rfl
    rw [List.head?_reverse, List.getLast?_eq_getLast _ hds] at hhead
    have hlast : (Nat.digits b n).getLast hds = d := by injection hhead
    have hd0 : d ≠ 0 := hlast ▸ Nat.getLast_digit_ne_zero b hn
    have hmem : d ∈ Nat.digits b n := hlast ▸ List.getLast_mem hds
    refine ⟨d, t.map Nat.digitChar, ?_, Nat.digits_lt_base hb hmem, fun _ => hd0⟩
    rw [renderBase_eq b n hb, if_neg hn, hdt]
    rfl

theorem renderBase_sep_free (b n : Nat) (hb : 1 < b) (hb16 : b ≤ 16) :
    ∀ c ∈ renderBase b n, sepStr.contains c = false := by
  intro c hc
  obtain ⟨d, hd16, rfl⟩ := renderBase_chars b n hb hb16 c hc
  exact digitChar_not_sep d hd16

theorem renderBase_ne_nil (b n : Nat) (hb : 1 < b) : renderBase b n ≠ [] := by
  obtain ⟨d, t, hdt, -, -⟩ := renderBase_structure b n hb
  rw [hdt]
  exact List.cons_ne_nil _ _

theorem renderBase_length_le (b n : Nat) (hb : 1 < b) (hn : n < 2 ^ 32) :
    (renderBase b n).length ≤ 32 := by
  by_cases h0 : n = 0
  · subst h0
    rw [renderBase_eq b 0 hb, if_pos rfl]
    norm_num
  · rw [renderBase_eq b n hb, if_neg h0]
    simp only [List.length_map, List.length_reverse]
    rw [Nat.digits_len b n hb h0]
    have hlog : Nat.log b n < 32 := by
      apply Nat.log_lt_of_lt_pow h0
      calc n < 2 ^ 32 := hn
        _ ≤ b ^ 32 := Nat.pow_le_pow_left (by omega) 32
    omega

theorem parseDigits_renderBase (b n : Nat) (hb : 1 < b) (hb16 : b ≤ 16) :
    parseDigits b (renderBase b n) 0 = (n, []) := by
  by_cases hn : n = 0
  · subst hn
    have h0 : digitVal? '0' = some 0 := by decide
    have hb0 : 0 < b := by omega
    rw [renderBase_eq b 0 hb, if_pos rfl]
    simp [parseDigits, h0, hb0]
  · rw [renderBase_eq b n hb, if_neg hn,
      parseDigits_map b hb16 _ 0
        (fun d hd => Nat.digits_lt_base hb (List.mem_reverse.mp hd))]
    simp [Nat.ofDigits_digits]

/-! ## Lemmas about `strtoul`-style parsing of rendered numbers -/

theorem dropWhile_cons_of_neg {p : Char → Bool} {c : Char} {r : List Char}
    (h : p c = false) : List.dropWhile p (c :: r) = c :: r := by
  simp [List.dropWhile_cons, h]

theorem splitSign_no_sign {c : Char} {r : List Char} (h1 : c ≠ '-') (h2 : c ≠ '+') :
    splitSign (c :: r) = (false, c :: r) := by
  simp [splitSign, h1, h2]

theorem splitSign_minus (r : List Char) : splitSign ('-' :: r) = (true, r) := by
  simp [splitSign]

theorem strtoulCore_of_body (c : Char) (r : List Char) (hsp : isSpaceC c = false)
    (h1 : c ≠ '-') (h2 : c ≠ '+') :
    strtoulCore (c :: r) = (strtoulBody (c :: r)).map (fun m => (false, m)) := by
  unfold strtoulCore
  rw [dropWhile_cons_of_neg hsp, splitSign_no_sign h1 h2]
  cases h : strtoulBody (c :: r) <;> simp [h]

theorem strtoulCore_minus (r : List Char) :
    strtoulCore ('-' :: r) = (strtoulBody r).map (fun m => (true, m)) := by
  unfold strtoulCore
  rw [dropWhile_cons_of_neg (by decide), splitSign_minus]
  cases h : strtoulBody r <;> simp [h]

theorem strtoulBody_decimal (n : Nat) : strtoulBody (renderBase 10 n) = some n := by
  by_cases hn : n = 0
  · subst hn
    decide
  · obtain ⟨d, t, hrb, hdb, hd0⟩ := renderBase_structure 10 n (by omega)
    have hd16 : d < 16 := by omega
    have hne0 : Nat.digitChar d ≠ '0' := digitChar_ne_zero d hd16 (hd0 hn)
    have hval := digitVal_digitChar d hd16
    have hp := parseDigits_renderBase 10 n (by omega) (by omega)
    rw [hrb] at hp
    rw [hrb]
    simp [strtoulBody, hne0, hval, hdb, hp]

theorem strtoulBody_hex (n : Nat) :
    strtoulBody ('0' :: 'x' :: renderBase 16 n) = some n := by
  obtain ⟨d, t, hrb, hdb, -⟩ := renderBase_structure 16 n (by omega)
  have hhex := digitChar_hex d (by omega)
  have hp := parseDigits_renderBase 16 n (by omega) (by omega)
  rw [hrb] at hp
  rw [hrb]
  simp [strtoulBody, hhex, hp]

theorem strtoulBody_octal (n : Nat) :
    strtoulBody ('0' :: renderBase 8 n) = some n := by
  obtain ⟨d, t, hrb, hdb, -⟩ := renderBase_structure 8 n (by omega)
  obtain ⟨hx, hX⟩ := digitChar_ne_x d (by omega)
  have hp := parseDigits_renderBase 8 n (by omega) (by omega)
  rw [hrb] at hp
  rw [hrb]
  simp [strtoulBody, hx, hX, hp]

/-! ## `stoi`/`stoul` on rendered numbers -/

theorem strtoulCore_renderBase10 (n : Nat) :
    strtoulCore (renderBase 10 n) = some (false, n) := by
  obtain ⟨d, t, hrb, hdb, -⟩ := renderBase_structure 10 n (by omega)
  have hd16 : d < 16 := by omega
  rw [hrb, strtoulCore_of_body _ _ (digitChar_not_space d hd16)
    (digitChar_ne_minus d hd16) (digitChar_ne_plus d hd16), ← hrb,
    strtoulBody_decimal]
  rfl

theorem stoiModel_eval_pos (s : List Char) (m : Nat)
    (h : strtoulCore s = some (false, m)) :
    stoiModel s =
      if (m : Int) < INT_MIN ∨ INT_MAX < (m : Int) then .error .outOfRange
      else .ok (m : Int) := by
  unfold stoiModel
  rw [h]
  rfl

theorem stoiModel_eval_neg (s : List Char) (m : Nat)
    (h : strtoulCore s = some (true, m)) :
    stoiModel s =
      if -(m : Int) < INT_MIN ∨ INT_MAX < -(m : Int) then .error .outOfRange
      else .ok (-(m : Int)) := by
  unfold stoiModel
  rw [h]
  rfl

theorem stoiModel_renderInt (v : Int) (h1 : INT_MIN ≤ v) (h2 : v ≤ INT_MAX) :
    stoiModel (renderInt v) = .ok v := by
  have hrange : ¬(v < INT_MIN ∨ INT_MAX < v) := by
    push_neg
    exact ⟨h1, h2⟩
  by_cases hv : v < 0
  · have hcore : strtoulCore (renderInt v) = some (true, v.natAbs) := by
      rw [renderInt, if_pos hv, strtoulCore_minus, strtoulBody_decimal]
      rfl
    have hnat : -((v.natAbs : Nat) : Int) = v := by omega
    rw [stoiModel_eval_neg _ _ hcore, hnat, if_neg hrange]
  · have hcore : strtoulCore (renderInt v) = some (false, v.natAbs) := by
      rw [renderInt, if_neg hv]
      exact strtoulCore_renderBase10 _
    have hnat : ((v.natAbs : Nat) : Int) = v := by omega
    rw [stoiModel_eval_pos _ _ hcore, hnat, if_neg hrange]

theorem stoulModel_renderBase10 (n : Nat) (hn : n ≤ ULONG_MAX) :
    stoulModel (renderBase 10 n) = .ok n := by
  unfold stoulModel
  rw [strtoulCore_renderBase10]
  simp [Nat.not_lt.mpr hn]

theorem stoiModel_hex (n : Nat) (h2 : (n : Int) ≤ INT_MAX) :
    stoiModel ('0' :: 'x' :: renderBase 16 n) = .ok (n : Int) := by
  have hcore : strtoulCore ('0' :: 'x' :: renderBase 16 n) = some (false, n) := by
    rw [strtoulCore_of_body '0' _ (by decide) (by decide) (by decide), strtoulBody_hex]
    rfl
  have h0 : (0 : Int) ≤ (n : Int) := Int.natCast_nonneg n
  have hmin : INT_MIN = -(2147483648 : Int) := by norm_num [INT_MIN]
  have hrange : ¬((n : Int) < INT_MIN ∨ INT_MAX < (n : Int)) := by
    push_neg
    exact ⟨by omega, h2⟩
  unfold stoiModel
  rw [hcore]
  simp [hrange]

theorem stoiModel_octal (n : Nat) (h2 : (n : Int) ≤ INT_MAX) :
    stoiModel ('0' :: renderBase 8 n) = .ok (n : Int) := by
  have hcore : strtoulCore ('0' :: renderBase 8 n) = some (false, n) := by
    rw [strtoulCore_of_body '0' _ (by decide) (by decide) (by decide), strtoulBody_octal]
    rfl
  have h0 : (0 : Int) ≤ (n : Int) := Int.natCast_nonneg n
  have hmin : INT_MIN = -(2147483648 : Int) := by norm_num [INT_MIN]
  have hrange : ¬((n : Int) < INT_MIN ∨ INT_MAX < (n : Int)) := by
    push_neg
    exact ⟨by omega, h2⟩
  unfold stoiModel
  rw [hcore]
  simp [hrange]

/-! ## `getint`/`getuint` on a state holding one full token -/

theorem getint_full_token (s : List Char) (hne : s ≠ [])
    (hsep : ∀ c ∈ s, sepStr.contains c = false) (hlen : s.length ≤ NPOS32)
    (w : Int) (hw : stoiModel s = .ok w) :
    getint ⟨s, 0⟩ = .ok (w, true, ⟨s, NPOS32⟩) := by
  unfold getint
  rw [gettoken_all s hne hsep hlen]
  simp [hw]

theorem getuint_full_token (s : List Char) (hne : s ≠ [])
    (hsep : ∀ c ∈ s, sepStr.contains c = false) (hlen : s.length ≤ NPOS32)
    (w : Nat) (hw : stoulModel s = .ok w) :
    getuint ⟨s, 0⟩ = .ok (w % 2 ^ 32, true, ⟨s, NPOS32⟩) := by
  unfold getuint
  rw [gettoken_all s hne hsep hlen]
  simp [hw]

theorem renderInt_ne_nil (v : Int) : renderInt v ≠ [] := by
  unfold renderInt
  by_cases hv : v < 0
  · simp [hv]
  · rw [if_neg hv]
    exact renderBase_ne_nil 10 _ (by omega)

theorem renderInt_sep_free (v : Int) : ∀ c ∈ renderInt v, sepStr.contains c = false := by
  intro c hc
  unfold renderInt at hc
  by_cases hv : v < 0
  · rw [if_pos hv] at hc
    rcases List.mem_cons.mp hc with rfl | hc2
    · decide
    · exact renderBase_sep_free 10 _ (by omega) (by omega) c hc2
  · rw [if_neg hv] at hc
    exact renderBase_sep_free 10 _ (by omega) (by omega) c hc

theorem renderInt_length_le (v : Int) (h : v.natAbs < 2 ^ 32) :
    (renderInt v).length ≤ 33 := by
  have hb := renderBase_length_le 10 v.natAbs (by omega) h
  unfold renderInt
  by_cases hv : v < 0
  · simp only [if_pos hv, List.length_cons]
    omega
  · rw [if_neg hv]
    omega

/-! ## Unfolding lemmas for `process` and the accessors -/

theorem process_eq_scan {α : Type} (table : List (CmdParam α)) (line : List Char)
    (hv : (gettoken ⟨line, 0⟩).valid = true) :
    process table line =
      (scanTable line (gettoken ⟨line, 0⟩).token (gettoken ⟨line, 0⟩).state.index table 0,
        (gettoken ⟨line, 0⟩).state) := by
  unfold process
  simp only []
  rw [if_pos hv]

theorem process_invalid {α : Type} (table : List (CmdParam α)) (line : List Char)
    (hv : (gettoken ⟨line, 0⟩).valid = false) :
    process table line = (some (.errPrint unknownErrMsg line), ⟨line, 0⟩) := by
  have hstate := gettoken_invalid_state _ hv
  unfold process
  simp only []
  rw [if_neg (by rw [hv]; exact Bool.false_ne_true), hstate]

theorem getint_ok_state (st : PState) :
    ∀ out, getint st = .ok out → out.2.2 = (gettoken st).state := by
  rintro ⟨o1, o2, o3⟩ h
  unfold getint at h
  simp only [] at h
  by_cases hv : (gettoken st).valid = true
  · rw [if_pos hv] at h
    cases hm : stoiModel (gettoken st).token with
    | ok v =>
        rw [hm] at h
        simp only [Except.ok.injEq, Prod.mk.injEq] at h
        exact h.2.2.symm
    | error e => rw [hm] at h; simp at h
  · rw [if_neg hv] at h
    simp only [Except.ok.injEq, Prod.mk.injEq] at h
    exact h.2.2.symm

theorem getuint_ok_state (st : PState) :
    ∀ out, getuint st = .ok out → out.2.2 = (gettoken st).state := by
  rintro ⟨o1, o2, o3⟩ h
  unfold getuint at h
  simp only [] at h
  by_cases hv : (gettoken st).valid = true
  · rw [if_pos hv] at h
    cases hm : stoulModel (gettoken st).token with
    | ok v =>
        rw [hm] at h
        simp only [Except.ok.injEq, Prod.mk.injEq] at h
        exact h.2.2.symm
    | error e => rw [hm] at h; simp at h
  · rw [if_neg hv] at h
    simp only [Except.ok.injEq, Prod.mk.injEq] at h
    exact h.2.2.symm

theorem getfloat_ok_state (st : PState) :
    ∀ out, getfloat st = .ok out → out.2.2 = (gettoken st).state := by
  rintro ⟨o1, o2, o3⟩ h
  unfold getfloat at h
  simp only [] at h
  by_cases hv : (gettoken st).valid = true
  · rw [if_pos hv] at h
    cases hm : stofModel (gettoken st).token with
    | ok v =>
        rw [hm] at h
        simp only [Except.ok.injEq, Prod.mk.injEq] at h
        exact h.2.2.symm
    | error e => rw [hm] at h; simp at h
  · rw [if_neg hv] at h
    simp only [Except.ok.injEq, Prod.mk.injEq] at h
    exact h.2.2.symm

/-! ## Claims -/

/-- C1: the claim states that on a match the handler receives the entry's
`id` field as its first argument.  The code instead passes the loop index
`i` (`table[i].fp(i, table[i].arg, …)`, cmd.cpp line 138), contradicting
the usage comment of cmd.cpp (lines 27–33: "Here, id will be 1").  For the
spec-example table `[{1,"help",…}, {0,"",…}]` and line `"help x"`, the
matched entry (head of the table) has `id = 1`, yet the handler is invoked
with first argument `0`.  The context argument and single-invocation
behaviour do hold; only the first argument diverges. -/
theorem C1_first_arg_is_index_not_id :
    (process helpTable ("help x".data)).1 = some (.invoked 0 0 () (" x".data)) ∧
    helpTable.head? = some ⟨1, "help".data, "Get help".data, ()⟩ := by
  decide

/-- C2: the claim states that a command word reaching end-of-line with no
trailing separator yields `remainder = ""`.  In the code, `gettoken` then
stores `npos` truncated to `4294967295` into the 32-bit `index`, and
`current.substr(index)` (cmd.cpp line 138) throws `std::out_of_range`
(modelled `PResult.thrown`): the handler is never invoked.  Evaluated here
at the spec's own example, table `[{1,"help",…}, {0,"",…}]`, line
`"help"`. -/
theorem C2_end_of_line_match_throws :
    process helpTable ("help".data) = (some .thrown, ⟨"help".data, NPOS32⟩) ∧
    (gettoken ⟨"help".data, 0⟩).valid = true ∧
    (gettoken ⟨"help".data, 0⟩).token = "help".data := by
  decide

/-- C3 (counterexample): after `gettoken` consumes a token with no
trailing separator, the cursor equals `4294967295` (truncated `npos`),
which exceeds `buffer.length()` — the claimed invariant
`cursor ≤ buffer.length()` fails, and the cursor is not `buffer.length()`
either. -/
theorem C3_cursor_counterexample :
    (gettoken ⟨"help".data, 0⟩).valid = true ∧
    (gettoken ⟨"help".data, 0⟩).state.index = 4294967295 ∧
    ¬((gettoken ⟨"help".data, 0⟩).state.index ≤ ("help".data).length) ∧
    (gettoken ⟨"help".data, 0⟩).state.index ≠ ("help".data).length := by
  decide

/-- C3 (amended): the cursor advances monotonically within one line and is
re-established at 0 only when `process` submits a new line; an invalid
`getToken` leaves the state unchanged; after a valid `getToken` the cursor
either sits on the separator that ended the token (hence
`cursor ≤ buffer.length()`) or equals `2^32 - 1` (truncated `npos`) when
the token ran to end-of-string — not `buffer.length()`.  The numeric
accessors move the cursor exactly as `getToken` does. -/
theorem C3_cursor_amended (st : PState) (hidx : st.index ≤ NPOS32) :
    (gettoken st).state.current = st.current ∧
    st.index ≤ (gettoken st).state.index ∧
    ((gettoken st).valid = false → (gettoken st).state = st) ∧
    ((gettoken st).valid = true →
        ((gettoken st).state.index < st.current.length ∧
            sepStr.contains (st.current.getD (gettoken st).state.index ' ') = true) ∨
          (gettoken st).state.index = NPOS32) ∧
    (∀ out, getint st = .ok out → out.2.2 = (gettoken st).state) ∧
    (∀ out, getuint st = .ok out → out.2.2 = (gettoken st).state) ∧
    (∀ out, getfloat st = .ok out → out.2.2 = (gettoken st).state) ∧
    (∀ (table : List (CmdParam Unit)) (line : List Char),
        (process table line).2 = (gettoken ⟨line, 0⟩).state) := by
  refine ⟨gettoken_current st, gettoken_mono st hidx,
    fun h => by rw [gettoken_invalid_state st h],
    gettoken_index_spec st, getint_ok_state st, getuint_ok_state st,
    getfloat_ok_state st, ?_⟩
  intro table line
  by_cases hv : (gettoken ⟨line, 0⟩).valid = true
  · rw [process_eq_scan table line hv]
  · have hv' : (gettoken ⟨line, 0⟩).valid = false := by
      simpa using hv
    rw [process_invalid table line hv', gettoken_invalid_state _ hv']

theorem C3_cursor_amended_witness :
    ((⟨"a b".data, 0⟩ : PState).index ≤ NPOS32) ∧
    ((gettoken ⟨"a b".data, 0⟩).state.current = (⟨"a b".data, 0⟩ : PState).current ∧
      (⟨"a b".data, 0⟩ : PState).index ≤ (gettoken ⟨"a b".data, 0⟩).state.index ∧
      ((gettoken ⟨"a b".data, 0⟩).valid = false →
        (gettoken ⟨"a b".data, 0⟩).state = ⟨"a b".data, 0⟩) ∧
      ((gettoken ⟨"a b".data, 0⟩).valid = true →
        ((gettoken ⟨"a b".data, 0⟩).state.index <
              (⟨"a b".data, 0⟩ : PState).current.length ∧
            sepStr.contains
              ((⟨"a b".data, 0⟩ : PState).current.getD
                (gettoken ⟨"a b".data, 0⟩).state.index ' ') = true) ∨
          (gettoken ⟨"a b".data, 0⟩).state.index = NPOS32) ∧
      (∀ out, getint ⟨"a b".data, 0⟩ = .ok out →
        out.2.2 = (gettoken ⟨"a b".data, 0⟩).state) ∧
      (∀ out, getuint ⟨"a b".data, 0⟩ = .ok out →
        out.2.2 = (gettoken ⟨"a b".data, 0⟩).state) ∧
      (∀ out, getfloat ⟨"a b".data, 0⟩ = .ok out →
        out.2.2 = (gettoken ⟨"a b".data, 0⟩).state) ∧
      (∀ (table : List (CmdParam Unit)) (line : List Char),
        (process table line).2 = (gettoken ⟨line, 0⟩).state)) :=
  ⟨by decide, C3_cursor_amended ⟨"a b".data, 0⟩ (by decide)⟩

/-- C4 (counterexample): the claim states that on a present but
non-numeric token `getFloat`/`getInt`/`getUInt` return normally with
`validOut = true`.  In the code `std::stof`/`std::stoi`/`std::stoul` throw
`std::invalid_argument` when no conversion can be performed (modelled
`Except.error`), so the calls do not return at all: for the state holding
the line `"abc"`, a token is present yet every accessor throws. -/
theorem C4_counterexample :
    (gettoken ⟨"abc".data, 0⟩).valid = true ∧
    getfloat ⟨"abc".data, 0⟩ = .error .invalidArgument ∧
    getint ⟨"abc".data, 0⟩ = .error .invalidArgument ∧
    getuint ⟨"abc".data, 0⟩ = .error .invalidArgument := by
  decide

/-- C4 (amended): when a token is present but its conversion fails, the
accessor propagates the conversion exception (`std::invalid_argument` /
`std::out_of_range`) instead of returning normally: conversion failure is
distinguished from success by an escaping exception, not by `validOut`. -/
theorem C4_conversion_failure_throws (st : PState) (e : ConvErr)
    (hv : (gettoken st).valid = true) :
    (stofModel (gettoken st).token = .error e → getfloat st = .error e) ∧
    (stoiModel (gettoken st).token = .error e → getint st = .error e) ∧
    (stoulModel (gettoken st).token = .error e → getuint st = .error e) := by
  refine ⟨fun hm => ?_, fun hm => ?_, fun hm => ?_⟩
  · unfold getfloat
    simp only []
    rw [if_pos hv, hm]
  · unfold getint
    simp only []
    rw [if_pos hv, hm]
  · unfold getuint
    simp only []
    rw [if_pos hv, hm]

theorem C4_conversion_failure_throws_witness :
    ((gettoken ⟨"abc".data, 0⟩).valid = true ∧
      stofModel (gettoken ⟨"abc".data, 0⟩).token = .error .invalidArgument) ∧
    ((stofModel (gettoken ⟨"abc".data, 0⟩).token = .error .invalidArgument →
        getfloat ⟨"abc".data, 0⟩ = .error .invalidArgument) ∧
      (stoiModel (gettoken ⟨"abc".data, 0⟩).token = .error .invalidArgument →
        getint ⟨"abc".data, 0⟩ = .error .invalidArgument) ∧
      (stoulModel (gettoken ⟨"abc".data, 0⟩).token = .error .invalidArgument →
        getuint ⟨"abc".data, 0⟩ = .error .invalidArgument)) :=
  ⟨⟨by decide, by decide⟩,
    C4_conversion_failure_throws ⟨"abc".data, 0⟩ .invalidArgument (by decide)⟩

/-- C5: for every sentinel-terminated table and every line whose first
token is valid but matches no entry's name, `process` calls
`notfoundfunc(cmdline, ccmd)` — original line first, extracted token
second — and no handler is invoked (the single recorded outcome is
`notFound`). -/
theorem C5_unknown_command {α : Type} (table : List (CmdParam α)) (line : List Char)
    (hsent : ∃ s ∈ table, s.cmdname = [])
    (hv : (gettoken ⟨line, 0⟩).valid = true)
    (hnomatch : ∀ e ∈ table, e.cmdname ≠ (gettoken ⟨line, 0⟩).token) :
    (process table line).1 = some (.notFound line (gettoken ⟨line, 0⟩).token) := by
  obtain ⟨s, hmem, hs⟩ := hsent
  obtain ⟨pre, post, rfl⟩ := List.append_of_mem hmem
  rw [process_eq_scan _ _ hv]
  exact scanTable_notFound line _ _ pre s post 0 hs
    (fun e he => hnomatch e (List.mem_append_left _ he))

theorem C5_unknown_command_witness :
    (process helpTable ("unknown foo".data)).1 =
      some (.notFound ("unknown foo".data) (gettoken ⟨"unknown foo".data, 0⟩).token) :=
  C5_unknown_command helpTable ("unknown foo".data)
    ⟨⟨0, [], [], ()⟩, by decide, rfl⟩ (by decide) (by decide)

/-- C6: for every table and every line that is empty or consists solely of
separator characters, `process` reports through `printfunc` (the message
`"Unknown error:"` followed by the original line) and returns with the
cursor state untouched; the outcome is independent of the table — no
lookup, no `notfoundfunc`, no handler. -/
theorem C6_blank_line {α : Type} (table : List (CmdParam α)) (line : List Char)
    (hsep : ∀ c ∈ line, sepStr.contains c = true) :
    process table line = (some (.errPrint unknownErrMsg line), ⟨line, 0⟩) := by
  have hnone : findFirstNotOf line 0 = none := by
    rw [findFirstNotOf, findIdxFrom_none_iff]
    intro c hc
    simpa using hsep c (by simpa using hc)
  have hv : (gettoken ⟨line, 0⟩).valid = false := by
    unfold gettoken
    simp [hnone]
  exact process_invalid table line hv

theorem C6_blank_line_witness :
    process helpTable ("   ".data) =
      (some (.errPrint unknownErrMsg ("   ".data)), ⟨"   ".data, 0⟩) :=
  C6_blank_line helpTable ("   ".data) (by decide)

/-- C7: when the matched command word is followed by at least one more
character, the remainder handed to the handler is `line[cursor:]` — the
suffix starting right after the token, leading separators included (they
are not skipped).  Instantiated at the spec's example: table
`[{4,"A",…}]` plus sentinel, line `"A 3.5"` gives `remainder = " 3.5"`,
and `getFloat` on the shared state left by `process` yields `3.5` with
`valid = true`. -/
theorem C7_remainder_after_token :
    (∀ (α : Type) (pre : List (CmdParam α)) (e : CmdParam α)
        (rest : List (CmdParam α)) (line : List Char),
        line.length ≤ NPOS32 →
        (gettoken ⟨line, 0⟩).valid = true →
        (∀ x ∈ pre, x.cmdname ≠ [] ∧ x.cmdname ≠ (gettoken ⟨line, 0⟩).token) →
        e.cmdname = (gettoken ⟨line, 0⟩).token →
        (gettoken ⟨line, 0⟩).state.index < line.length →
        (process (pre ++ e :: rest) line).1 =
          some (.invoked pre.length pre.length e.arg
            (line.drop (gettoken ⟨line, 0⟩).state.index))) ∧
    (process aTable ("A 3.5".data)).1 = some (.invoked 0 0 () (" 3.5".data)) ∧
    getfloat (process aTable ("A 3.5".data)).2 =
      .ok ((7 : Rat) / 2, true, ⟨"A 3.5".data, NPOS32⟩) := by
  refine ⟨?_, by decide, ?_⟩
  · intro α pre e rest line hlen hv hpre hmatch hidx
    have htok := gettoken_token_spec ⟨line, 0⟩ hlen hv
    rw [process_eq_scan _ _ hv]
    simp only []
    rw [scanTable_match line _ _ (Nat.le_of_lt hidx) pre e rest 0 hpre hmatch htok.1]
    simp
  · have hst : (process aTable ("A 3.5".data)).2 = ⟨"A 3.5".data, 1⟩ := by decide
    rw [hst]
    have h : getfloat ⟨"A 3.5".data, 1⟩ =
        .ok ((1 : Rat) * (((3 : Nat) : Rat) + ((5 : Nat) : Rat) / (10 : Rat) ^ (1 : Nat)) *
          (10 : Rat) ^ (0 : Int), true, ⟨"A 3.5".data, NPOS32⟩) := rfl
    rw [h]
    norm_num

theorem C7_remainder_after_token_witness :
    (process ([] ++ (⟨4, "A".data, "View/set valueA".data, ()⟩ : CmdParam Unit) ::
        [⟨0, [], [], ()⟩]) ("A 3.5".data)).1 =
      some (.invoked (List.length ([] : List (CmdParam Unit)))
        (List.length ([] : List (CmdParam Unit))) ()
        (("A 3.5".data).drop (gettoken ⟨"A 3.5".data, 0⟩).state.index)) :=
  C7_remainder_after_token.1 Unit [] ⟨4, "A".data, "View/set valueA".data, ()⟩
    [⟨0, [], [], ()⟩] ("A 3.5".data) (by decide) (by decide) (by decide)
    (by decide) (by decide)

/-- C8: the table scan terminates at the first entry whose name is empty:
entries after it are never examined (the outcome does not depend on them),
and neither the sentinel itself nor anything after it is ever invoked —
every invoked index lies strictly before the sentinel's position. -/
theorem C8_sentinel_terminates {α : Type} (line : List Char)
    (pre : List (CmdParam α)) (s : CmdParam α) (post post' : List (CmdParam α))
    (hs : s.cmdname = []) :
    process (pre ++ s :: post) line = process (pre ++ s :: post') line ∧
    (∀ j fa a r, (process (pre ++ s :: post) line).1 = some (.invoked j fa a r) →
        j < pre.length) := by
  constructor
  · by_cases hv : (gettoken ⟨line, 0⟩).valid = true
    · rw [process_eq_scan _ _ hv, process_eq_scan _ _ hv,
        scanTable_sentinel_blocks line _ _ pre s post post' 0 hs]
    · have hv' : (gettoken ⟨line, 0⟩).valid = false := by simpa using hv
      rw [process_invalid _ _ hv', process_invalid _ _ hv']
  · intro j fa a r h
    by_cases hv : (gettoken ⟨line, 0⟩).valid = true
    · rw [process_eq_scan _ _ hv] at h
      have := scanTable_invoked_lt line _ _ pre s post 0 j fa a r hs h
      simpa using this
    · have hv' : (gettoken ⟨line, 0⟩).valid = false := by simpa using hv
      rw [process_invalid _ _ hv'] at h
      simp at h

theorem C8_sentinel_terminates_witness :
    (process ([⟨1, "help".data, [], ()⟩] ++ (⟨0, [], [], ()⟩ : CmdParam Unit) ::
          [⟨9, "post".data, [], ()⟩]) ("post".data) =
        process ([⟨1, "help".data, [], ()⟩] ++ (⟨0, [], [], ()⟩ : CmdParam Unit) ::
          ([] : List (CmdParam Unit))) ("post".data)) ∧
    (∀ j fa a r,
        (process ([⟨1, "help".data, [], ()⟩] ++ (⟨0, [], [], ()⟩ : CmdParam Unit) ::
            [⟨9, "post".data, [], ()⟩]) ("post".data)).1 =
          some (.invoked j fa a r) →
        j < [(⟨1, "help".data, [], ()⟩ : CmdParam Unit)].length) :=
  C8_sentinel_terminates ("post".data) [⟨1, "help".data, [], ()⟩] ⟨0, [], [], ()⟩
    [⟨9, "post".data, [], ()⟩] [] rfl

/-- C9: round-trip of the numeric accessors on a freshly submitted line
holding the standard textual rendering of the value: `getInt` recovers
every 32-bit `int` from its decimal rendering, `getUInt` recovers every
32-bit `unsigned int` from its decimal rendering, and `getInt`
auto-detects the base, recovering values from `0x`-prefixed hexadecimal
and `0`-prefixed octal renderings; `validOut` is `true` in every case. -/
theorem C9_numeric_roundtrip :
    (∀ v : Int, INT_MIN ≤ v → v ≤ INT_MAX →
        getint ⟨renderInt v, 0⟩ = .ok (v, true, ⟨renderInt v, NPOS32⟩)) ∧
    (∀ n : Nat, n < 2 ^ 32 →
        getuint ⟨renderBase 10 n, 0⟩ = .ok (n, true, ⟨renderBase 10 n, NPOS32⟩)) ∧
    (∀ n : Nat, (n : Int) ≤ INT_MAX →
        getint ⟨'0' :: 'x' :: renderBase 16 n, 0⟩ =
          .ok ((n : Int), true, ⟨'0' :: 'x' :: renderBase 16 n, NPOS32⟩)) ∧
    (∀ n : Nat, (n : Int) ≤ INT_MAX →
        getint ⟨'0' :: renderBase 8 n, 0⟩ =
          .ok ((n : Int), true, ⟨'0' :: renderBase 8 n, NPOS32⟩)) := by
  have h2pow : (2 : Nat) ^ 32 = 4294967296 := by norm_num
  have hmin : INT_MIN = -(2147483648 : Int) := by norm_num [INT_MIN]
  have hmax : INT_MAX = (2147483647 : Int) := by norm_num [INT_MAX]
  have hNPOS : NPOS32 = 4294967295 := by norm_num [NPOS32]
  refine ⟨?_, ?_, ?_, ?_⟩
  · intro v h1 h2
    have habs : v.natAbs < 2 ^ 32 := by omega
    have hlen : (renderInt v).length ≤ NPOS32 := by
      have := renderInt_length_le v habs
      omega
    exact getint_full_token _ (renderInt_ne_nil v) (renderInt_sep_free v) hlen v
      (stoiModel_renderInt v h1 h2)
  · intro n hn
    have hlen : (renderBase 10 n).length ≤ NPOS32 := by
      have := renderBase_length_le 10 n (by omega) hn
      omega
    have hu : n ≤ ULONG_MAX := by
      have h64 : ULONG_MAX = 2 ^ 64 - 1 := rfl
      have h2p64 : (2 : Nat) ^ 64 = 18446744073709551616 := by norm_num
      omega
    have := getuint_full_token (renderBase 10 n) (renderBase_ne_nil 10 n (by omega))
      (renderBase_sep_free 10 n (by omega) (by omega)) hlen n
      (stoulModel_renderBase10 n hu)
    rwa [Nat.mod_eq_of_lt hn] at this
  · intro n h2
    have hn32 : n < 2 ^ 32 := by omega
    have hsf : ∀ c ∈ '0' :: 'x' :: renderBase 16 n, sepStr.contains c = false := by
      intro c hc
      rcases List.mem_cons.mp hc with rfl | hc
      · decide
      rcases List.mem_cons.mp hc with rfl | hc
      · decide
      · exact renderBase_sep_free 16 n (by omega) (by omega) c hc
    have hlen : ('0' :: 'x' :: renderBase 16 n).length ≤ NPOS32 := by
      have := renderBase_length_le 16 n (by omega) hn32
      simp only [List.length_cons]
      omega
    exact getint_full_token _ (List.cons_ne_nil _ _) hsf hlen _ (stoiModel_hex n h2)
  · intro n h2
    have hn32 : n < 2 ^ 32 := by omega
    have hsf : ∀ c ∈ '0' :: renderBase 8 n, sepStr.contains c = false := by
      intro c hc
      rcases List.mem_cons.mp hc with rfl | hc
      · decide
      · exact renderBase_sep_free 8 n (by omega) (by omega) c hc
    have hlen : ('0' :: renderBase 8 n).length ≤ NPOS32 := by
      have := renderBase_length_le 8 n (by omega) hn32
      simp only [List.length_cons]
      omega
    exact getint_full_token _ (List.cons_ne_nil _ _) hsf hlen _ (stoiModel_octal n h2)

theorem C9_numeric_roundtrip_witness :
    (INT_MIN ≤ (-2147483648 : Int) ∧ (-2147483648 : Int) ≤ INT_MAX ∧
      (4294967295 : Nat) < 2 ^ 32 ∧ ((26 : Nat) : Int) ≤ INT_MAX ∧
      ((15 : Nat) : Int) ≤ INT_MAX) ∧
    getint ⟨renderInt (-2147483648), 0⟩ =
      .ok (-2147483648, true, ⟨renderInt (-2147483648), NPOS32⟩) ∧
    getuint ⟨renderBase 10 4294967295, 0⟩ =
      .ok (4294967295, true, ⟨renderBase 10 4294967295, NPOS32⟩) ∧
    getint ⟨'0' :: 'x' :: renderBase 16 26, 0⟩ =
      .ok (((26 : Nat) : Int), true, ⟨'0' :: 'x' :: renderBase 16 26, NPOS32⟩) ∧
    getint ⟨'0' :: renderBase 8 15, 0⟩ =
      .ok (((15 : Nat) : Int), true, ⟨'0' :: renderBase 8 15, NPOS32⟩) :=
  ⟨⟨by decide, by decide, by decide, by decide, by decide⟩,
    C9_numeric_roundtrip.1 (-2147483648) (by decide) (by decide),
    C9_numeric_roundtrip.2.1 4294967295 (by decide),
    C9_numeric_roundtrip.2.2.1 26 (by decide),
    C9_numeric_roundtrip.2.2.2 15 (by decide)⟩

/-- C10: whenever `getToken` reports valid, the returned token is nonempty
and contains no separator character; consequently a tokenized command word
can never equal the sentinel's empty name. -/
theorem C10_valid_token_shape (st : PState) (hlen : st.current.length ≤ NPOS32)
    (hv : (gettoken st).valid = true) :
    (gettoken st).token ≠ [] ∧
    (∀ c ∈ (gettoken st).token, sepStr.contains c = false) ∧
    (∀ e : CmdParam Unit, e.cmdname = [] → (gettoken st).token ≠ e.cmdname) := by
  obtain ⟨h1, h2⟩ := gettoken_token_spec st hlen hv
  refine ⟨h1, h2, fun e he => ?_⟩
  rw [he]
  exact h1

theorem C10_valid_token_shape_witness :
    (("help x".data).length ≤ NPOS32 ∧ (gettoken ⟨"help x".data, 0⟩).valid = true) ∧
    ((gettoken ⟨"help x".data, 0⟩).token ≠ [] ∧
      (∀ c ∈ (gettoken ⟨"help x".data, 0⟩).token, sepStr.contains c = false) ∧
      (∀ e : CmdParam Unit, e.cmdname = [] →
        (gettoken ⟨"help x".data, 0⟩).token ≠ e.cmdname)) :=
  ⟨⟨by decide, by decide⟩,
    C10_valid_token_shape ⟨"help x".data, 0⟩ (by decide) (by decide)⟩

end CmdParse
